import Mathlib

/-!
Verification of the NOW command layer: the base `Command` lifecycle hooks, the
MUX-style argument parser, and the `who` roster command
(`src/NOW/commands/command.py`).

Strings from the game are embedded as `List Char` so that every operation is
executable and kernel-reducible.  The host framework's collaborators
(`SESSIONS`, `utils.crop`, `utils.time_format`, `prettytable`) are modelled at
their interfaces: table cells record exactly the values the code passes to the
renderer, with `Cell.timeFmt` standing for the deterministic external duration
formatter applied to the given delta and granularity style.
-/

/-- Per-account data (external collaborator).  In the host framework an
account's display `name` is its `key`, so the single `key` field serves both
as the sort key (`o.player.key`, line 170) and the displayed account name
(`player.name`, line 197). -/
structure Player where
  key : List Char
deriving DecidableEq

/-- The in-world object controlled by a session; `locationKey` models
`puppet.location.key`. -/
structure Puppet where
  key : List Char
  locationKey : List Char
deriving DecidableEq

/-- Network address of a session: either a plain string or a tuple whose first
element is the host. -/
inductive Address where
  | str : List Char → Address
  | tup : List Char → List (List Char) → Address
deriving DecidableEq

/-- Session record (external collaborator, consumed by `CmdWho.func`). -/
structure Session where
  logged_in : Bool
  conn_time : Int
  cmd_last_visible : Int
  player : Player
  puppet : Option Puppet
  cmd_total : Nat
  protocol_key : List Char
  address : Address
deriving DecidableEq

/-- A value placed into a table cell.  `timeFmt d g` records the arguments the
code passes to the external `utils.time_format` formatter; `tupv` records a
tuple value passed through unrendered. -/
inductive Cell where
  | str : List Char → Cell
  | num : Nat → Cell
  | timeFmt : Int → Nat → Cell
  | tupv : List Char → List (List Char) → Cell
deriving DecidableEq

/-- The external `utils.crop(text, width=25)` helper: text at most `width`
characters long is returned unchanged, longer text is cut to
`width - 5` characters and the 5-character suffix `[...]` is appended. -/
def crop (text : List Char) (width : Nat) : List Char :=
  if text.length ≤ width then text else text.take (width - 5) ++ "[...]".toList

/-- Cell for `isinstance(session.address, tuple) and session.address[0] or
session.address` (line 204): the host part of a tuple address when that part
is truthy, otherwise the value itself. -/
def addressCell : Address → Cell
  | Address.str s => Cell.str s
  | Address.tup h rest => if h = [] then Cell.tupv h rest else Cell.str h

/-- Location string: `puppet.location.key if puppet else "None"`
(lines 196, 216). -/
def locationOf (s : Session) : List Char :=
  match s.puppet with
  | some p => p.locationKey
  | none => "None".toList

/-- Character-column string: the puppet's key, or the given placeholder when
the session has no puppet (lines 200, 217, 231). -/
def charDisplay (placeholder : List Char) (s : Session) : List Char :=
  match s.puppet with
  | some p => p.key
  | none => placeholder

/-- Ordering used by `sorted(session_list, key=lambda o: o.player.key)`
(line 170). -/
def sessLE (a b : Session) : Prop :=
  a.player.key ≤ b.player.key

instance : DecidableRel sessLE :=
  fun a b => inferInstanceAs (Decidable (a.player.key ≤ b.player.key))

instance : IsTotal Session sessLE :=
  ⟨fun a b => le_total a.player.key b.player.key⟩

instance : IsTrans Session sessLE :=
  ⟨fun _ _ _ hab hbc => le_trans hab hbc⟩

/-- Row of the privileged full view (`who/f` by an elevated caller),
lines 197-204. -/
def mkRowFull (now : Int) (s : Session) : List Cell :=
  [Cell.str (crop s.player.key 25),
   Cell.timeFmt (now - s.conn_time) 0,
   Cell.timeFmt (now - s.cmd_last_visible) 1,
   Cell.str (crop (charDisplay "None".toList s) 25),
   Cell.str (crop (locationOf s) 25),
   Cell.num s.cmd_total,
   Cell.str s.protocol_key,
   addressCell s.address]

/-- Row of the non-privileged `who/f` view, lines 217-220. -/
def mkRowMod (now : Int) (s : Session) : List Cell :=
  [Cell.str (crop (charDisplay "- Unknown -".toList s) 25),
   Cell.timeFmt (now - s.conn_time) 0,
   Cell.timeFmt (now - s.cmd_last_visible) 1,
   Cell.str (crop (locationOf s) 25)]

/-- Row of the minimal `who` view, lines 231-233. -/
def mkRowMin (now : Int) (s : Session) : List Cell :=
  [Cell.str (crop (charDisplay "- Unknown -".toList s) 25),
   Cell.timeFmt (now - s.conn_time) 0,
   Cell.timeFmt (now - s.cmd_last_visible) 1]

/-- Header of the privileged full view (line 182). -/
def fullHeader : List (List Char) :=
  ["\x7bwPlayer Name".toList, "\x7bwOn for".toList, "\x7bwIdle".toList,
   "\x7bwCharacter".toList, "\x7bwRoom".toList, "\x7bwCmds".toList,
   "\x7bwProtocol".toList, "\x7bwHost".toList]

/-- Header of the non-privileged `who/f` view (line 208). -/
def modHeader : List (List Char) :=
  ["\x7bwCharacter".toList, "\x7bwOn for".toList, "\x7bwIdle".toList,
   "\x7bwLocation".toList]

/-- Header of the minimal `who` view (line 223). -/
def minHeader : List (List Char) :=
  ["\x7bwCharacter".toList, "\x7bwOn for".toList, "\x7bwIdle".toList]

/-- Summary line `"%s unique account%s logged in." % ("One" if isone else
nplayers, "" if isone else "s")` (lines 235-236). -/
def summaryPhrase (nplayers : Nat) : List Char :=
  (if nplayers = 1 then "One".toList else (Nat.repr nplayers).toList)
    ++ " unique account".toList
    ++ (if nplayers = 1 then [] else ['s'])
    ++ " logged in.".toList

/-- Sessions that actually produce a row: the sorted session list with
sessions that are not logged in skipped (lines 170, 191, 210, 225). -/
def visibleSessions (sessions : List Session) : List Session :=
  (List.insertionSort sessLE sessions).filter (fun s => s.logged_in)

/-- The message `CmdWho.func` sends: the table it builds (header and rows)
plus the appended summary line.  The constant banner prefix of line 236 is
omitted as it carries no data. -/
structure WhoOutput where
  header : List (List Char)
  rows : List (List Cell)
  summary : List Char
deriving DecidableEq

/-- The body of `CmdWho.func` (lines 162-236): sort the session list by the
owning account's key, pick a view from the `f` switch and the caller's
elevation (`check_permstring("Immortals") or check_permstring("Wizards")`,
line 173), emit one row per logged-in session, and append the summary line
built from the collaborator's `player_count()` result. -/
def whoOutput (sessions : List Session) (nplayers : Nat) (elevated : Bool)
    (switches : List (List Char)) (now : Int) : WhoOutput :=
  let show_session_data := if "f".toList ∈ switches then elevated else false
  if "f".toList ∈ switches then
    if show_session_data then
      ⟨fullHeader, (visibleSessions sessions).map (mkRowFull now),
        summaryPhrase nplayers⟩
    else
      ⟨modHeader, (visibleSessions sessions).map (mkRowMod now),
        summaryPhrase nplayers⟩
  else
    ⟨minHeader, (visibleSessions sessions).map (mkRowMin now),
      summaryPhrase nplayers⟩

/-- Row constructor selected by the view logic of `CmdWho.func`. -/
def viewRow (elevated : Bool) (switches : List (List Char)) (now : Int) :
    Session → List Cell :=
  if "f".toList ∈ switches then
    (if elevated then mkRowFull now else mkRowMod now)
  else mkRowMin now

/-- The read-only state `CmdWho.func` consults: the session registry and the
collaborator's distinct logged-in account count. -/
structure WhoState where
  sessions : List Session
  nplayers : Nat
deriving DecidableEq

/-- Effect shape of `CmdWho.func`: it reads the state and sends exactly one
message, `self.msg(string)` (line 237), to the invoking caller. -/
def CmdWho.func (st : WhoState) (callerId : Nat) (elevated : Bool)
    (switches : List (List Char)) (now : Int) :
    WhoState × List (Nat × WhoOutput) :=
  (st, [(callerId, whoOutput st.sessions st.nplayers elevated switches now)])

/-- Lifecycle hook steps of the base `Command` (docstring lines 22-29). -/
inductive HookStep where
  | pre
  | parsing
  | exec
  | post
deriving DecidableEq

/-- Base `Command.at_pre_cmd` (lines 48-52): the body is `pass`, so the hook
returns Python's `None`, embedded as `Option.none` (a boolean return would be
`some b`). -/
def Command.at_pre_cmd : Option Bool := none

/-- Python truthiness of an optional boolean: `None` is falsy. -/
def truthy : Option Bool → Bool
  | none => false
  | some b => b

/-- Modelled from the spec: the host dispatcher (not present under `src/`)
runs `at_pre_cmd` first and aborts, running no further hooks, exactly when the
value it returned is truthy; otherwise `parse`, `func` and `at_post_cmd` run
in order with no other short-circuit. -/
def runLifecycle (preResult : Option Bool) : List HookStep :=
  if truthy preResult then [HookStep.pre]
  else [HookStep.pre, HookStep.parsing, HookStep.exec, HookStep.post]

/-- Character that may appear inside a switch name: anything but `/` and
whitespace. -/
def isNameChar (c : Char) : Bool :=
  !(c = '/' || c.isWhitespace)

/-- Modelled from the spec: the switch-stripping step of the MUX parser (its
implementation lives in the host framework; `src` holds only its docstring,
lines 113-127).  All leading `/switch` tokens occurring before any non-switch
content are stripped and collected in order, lowercase-normalized; whitespace
between switch tokens is not content.  The fuel argument bounds recursion and
never runs out when it starts at the input length. -/
def stripAux : Nat → List Char → List (List Char) × List Char
  | _, [] => ([], [])
  | 0, cs => ([], cs)
  | fuel + 1, c :: cs =>
    if c.isWhitespace then stripAux fuel cs
    else if c = '/' then
      let name := cs.takeWhile isNameChar
      let rest := cs.dropWhile isNameChar
      let res := stripAux fuel rest
      (name.map Char.toLower :: res.1, res.2)
    else ([], c :: cs)

/-- Switch extraction over a raw argument string. -/
def stripSwitches (cs : List Char) : List (List Char) × List Char :=
  stripAux cs.length cs

/-- Leading-whitespace removal. -/
def ltrim (cs : List Char) : List Char :=
  cs.dropWhile Char.isWhitespace

/-- Trailing-whitespace removal. -/
def rtrim : List Char → List Char
  | [] => []
  | c :: cs =>
    match rtrim cs with
    | [] => if c.isWhitespace then [] else [c]
    | d :: ds => c :: d :: ds

/-- Surrounding-whitespace removal. -/
def trim (cs : List Char) : List Char :=
  rtrim (ltrim cs)

/-- Comma splitting; an empty string yields a single empty segment, matching
the split semantics the docstring inherits. -/
def splitOnComma : List Char → List (List Char)
  | [] => [[]]
  | c :: cs =>
    let r := splitOnComma cs
    if c = ',' then [] :: r
    else
      match r with
      | [] => [[c]]
      | seg :: segs => (c :: seg) :: segs

/-- Whitespace splitting into tokens, empty tokens dropped. -/
def spaceSplitAux (acc : List Char) : List Char → List (List Char)
  | [] => if acc = [] then [] else [acc.reverse]
  | c :: cs =>
    if c.isWhitespace then
      if acc = [] then spaceSplitAux [] cs
      else acc.reverse :: spaceSplitAux [] cs
    else spaceSplitAux (c :: acc) cs

/-- Parsed invocation context of a MUX command (docstring lines 113-127):
switches, the raw input, the remaining `args`, the split on the first `=`
into `lhs` and optional `rhs`, the comma-split lists, and the
whitespace-split `arglist`. -/
structure MuxParsed where
  switches : List (List Char)
  raw : List Char
  args : List Char
  lhs : List Char
  rhs : Option (List Char)
  lhslist : List (List Char)
  rhslist : List (List Char)
  arglist : List (List Char)
deriving DecidableEq

/-- Split a string at the first `=`, if any. -/
def splitFirstEq : List Char → Option (List Char × List Char)
  | [] => none
  | c :: cs =>
    if c = '=' then some ([], cs)
    else
      match splitFirstEq cs with
      | none => none
      | some (l, r) => some (c :: l, r)

/-- Modelled from the spec: the MUX argument parser (spec section 4.2; the
implementation lives in the host framework, `src` holds only its docstring).
Switches are stripped and collected first; the remainder, trimmed, becomes
`args`; `args` splits on the first `=` into `lhs`/`rhs` with `rhs` the absent
sentinel when no `=` occurs; `lhslist`/`rhslist` are the comma-split trimmed
segments, `rhslist` computed only from a non-absent `rhs`. -/
def muxParse (raw : List Char) : MuxParsed :=
  let sw := stripSwitches raw
  let args := trim sw.2
  match splitFirstEq args with
  | none =>
    ⟨sw.1, raw, args, args, none,
      (splitOnComma args).map trim, [], spaceSplitAux [] args⟩
  | some (l, r) =>
    ⟨sw.1, raw, args, trim l, some (trim r),
      (splitOnComma (trim l)).map trim, (splitOnComma (trim r)).map trim,
      spaceSplitAux [] args⟩

/-- A string on which switch stripping finds nothing: empty, or starting with
a character that is neither whitespace nor `/`. -/
def noLeadSwitch : List Char → Bool
  | [] => true
  | c :: _ => !(c.isWhitespace || c = '/')

theorem stripAux_no_slash (fuel : Nat) (cs : List Char) (h : '/' ∉ cs)
    (hf : cs.length ≤ fuel) : stripAux fuel cs = ([], ltrim cs) := by
  induction fuel generalizing cs with
  | zero =>
    cases cs with
    | nil => rfl
    | cons c cs => simp at hf
  | succ fuel ih =>
    cases cs with
    | nil => rfl
    | cons c cs =>
      have hc : ¬(c = '/') := fun hc => h (hc ▸ List.mem_cons_self c cs)
      have h' : '/' ∉ cs := fun hm => h (List.mem_cons_of_mem c hm)
      by_cases hw : c.isWhitespace
      · simp only [stripAux, hw, if_true, ltrim, List.dropWhile_cons, hw]
        have := ih cs h' (by simpa using Nat.le_of_succ_le_succ hf)
        simpa [ltrim] using this
      · simp [stripAux, hw, hc, ltrim, List.dropWhile_cons]

theorem stripAux_headClear (fuel : Nat) (cs : List Char)
    (hf : cs.length ≤ fuel) : noLeadSwitch (stripAux fuel cs).2 = true := by
  induction fuel generalizing cs with
  | zero =>
    cases cs with
    | nil => rfl
    | cons c cs => simp at hf
  | succ fuel ih =>
    cases cs with
    | nil => rfl
    | cons c cs =>
      by_cases hw : c.isWhitespace
      · simp only [stripAux, hw, if_true]
        exact ih cs (by simpa using Nat.le_of_succ_le_succ hf)
      · by_cases hc : c = '/'
        · simp only [stripAux, hw, hc, if_true, if_false, Bool.false_eq_true]
          have hlen : (cs.dropWhile isNameChar).length ≤ fuel := by
            have h1 : (cs.dropWhile isNameChar).length ≤ cs.length :=
              (List.dropWhile_sublist isNameChar).length_le
            have h2 : cs.length ≤ fuel := by simpa using Nat.le_of_succ_le_succ hf
            omega
          exact ih (cs.dropWhile isNameChar) hlen
        · simp [stripAux, hw, hc, noLeadSwitch]

theorem rtrim_headClear (cs : List Char) (h : noLeadSwitch cs = true) :
    noLeadSwitch (rtrim cs) = true := by
  cases cs with
  | nil => rfl
  | cons c cs =>
    simp only [noLeadSwitch, Bool.not_eq_true', Bool.or_eq_false_iff] at h
    cases hr : rtrim cs with
    | nil =>
      simp only [rtrim, hr]
      rw [if_neg (by simp [h.1])]
      simp [noLeadSwitch, h.1, h.2]
    | cons d ds =>
      simp [rtrim, hr, noLeadSwitch, h.1, h.2]

theorem trim_of_headClear (cs : List Char) (h : noLeadSwitch cs = true) :
    trim cs = rtrim cs := by
  cases cs with
  | nil => rfl
  | cons c cs =>
    simp only [noLeadSwitch, Bool.not_eq_true', Bool.or_eq_false_iff] at h
    simp [trim, ltrim, List.dropWhile_cons, h.1]

theorem stripSwitches_of_headClear (cs : List Char)
    (h : noLeadSwitch cs = true) : stripSwitches cs = ([], cs) := by
  cases cs with
  | nil => rfl
  | cons c cs =>
    simp only [noLeadSwitch, Bool.not_eq_true', Bool.or_eq_false_iff,
      decide_eq_false_iff_not] at h
    simp [stripSwitches, stripAux, h.1, h.2]

theorem muxParse_switches_eq (raw : List Char) :
    (muxParse raw).switches = (stripSwitches raw).1 := by
  unfold muxParse
  cases h : splitFirstEq (trim (stripSwitches raw).2) <;> simp [h]

theorem muxParse_args_eq (raw : List Char) :
    (muxParse raw).args = trim (stripSwitches raw).2 := by
  unfold muxParse
  cases h : splitFirstEq (trim (stripSwitches raw).2) <;> simp [h]

theorem mem_rtrim (a : Char) (cs : List Char) (h : a ∈ rtrim cs) : a ∈ cs := by
  induction cs with
  | nil => simp [rtrim] at h
  | cons c cs ih =>
    simp only [rtrim] at h
    cases hr : rtrim cs with
    | nil =>
      rw [hr] at h
      by_cases hw : c.isWhitespace
      · rw [if_pos hw] at h; simp at h
      · rw [if_neg hw] at h
        simp at h
        simp [h]
    | cons d ds =>
      rw [hr] at h
      rcases List.mem_cons.mp h with h1 | h2
      · simp [h1]
      · exact List.mem_cons_of_mem c (ih (hr ▸ List.mem_cons.mpr (by simpa using h2)))

theorem mem_trim (a : Char) (cs : List Char) (h : a ∈ trim cs) : a ∈ cs :=
  (List.dropWhile_sublist Char.isWhitespace).mem (mem_rtrim a (ltrim cs) h)

theorem splitFirstEq_eq_none (cs : List Char) (h : '=' ∉ cs) :
    splitFirstEq cs = none := by
  induction cs with
  | nil => rfl
  | cons c cs ih =>
    have hc : ¬(c = '=') := fun hc => h (hc ▸ List.mem_cons_self c cs)
    have h' : '=' ∉ cs := fun hm => h (List.mem_cons_of_mem c hm)
    simp [splitFirstEq, hc, ih h']

theorem crop_length_le (text : List Char) : (crop text 25).length ≤ 25 := by
  unfold crop
  split
  · omega
  · rename_i h
    rw [List.length_append, List.length_take]
    have h5 : ("[...]".toList).length = 5 := by decide
    have hm : min (25 - 5) text.length ≤ 20 := Nat.min_le_left _ _
    omega

/-- C5: a raw argument string containing no `/` and no `=` parses to an empty
switch list, `lhs` equal to `args`, and an absent `rhs`; and for every input
whose `rhs` is absent, `rhslist` is left empty rather than computed. -/
theorem muxParse_plain_args (raw : List Char) :
    ('/' ∉ raw → '=' ∉ raw →
      (muxParse raw).switches = [] ∧ (muxParse raw).lhs = (muxParse raw).args
        ∧ (muxParse raw).rhs = none)
    ∧ ((muxParse raw).rhs = none → (muxParse raw).rhslist = []) := by
  constructor
  · intro h1 h2
    have hs : stripSwitches raw = ([], ltrim raw) :=
      stripAux_no_slash raw.length raw h1 le_rfl
    have heq : splitFirstEq (trim (stripSwitches raw).2) = none := by
      apply splitFirstEq_eq_none
      intro hm
      rw [hs] at hm
      exact h2 ((List.dropWhile_sublist Char.isWhitespace).mem
        (mem_trim '=' (ltrim raw) hm))
    refine ⟨?_, ?_, ?_⟩
    · rw [muxParse_switches_eq, hs]
    · simp [muxParse, heq]
    · simp [muxParse, heq]
  · intro h
    rcases heq : splitFirstEq (trim (stripSwitches raw).2) with _ | p
    · simp [muxParse, heq]
    · exfalso
      simp [muxParse, heq] at h

theorem muxParse_plain_args_witness :
    (muxParse "ab cd".toList).switches = []
    ∧ (muxParse "ab cd".toList).rhs = none
    ∧ (muxParse "ab cd".toList).rhslist = [] := by
  have h := muxParse_plain_args "ab cd".toList
  have h1 := h.1 (by decide) (by decide)
  exact ⟨h1.1, h1.2.2, h.2 h1.2.2⟩

/-- C6: switch extraction is idempotent — re-running the parser on the `args`
string left after switch stripping extracts no further switches. -/
theorem muxParse_switch_idempotent (raw : List Char) :
    (muxParse (muxParse raw).args).switches = [] := by
  rw [muxParse_switches_eq, muxParse_args_eq]
  have h1 : noLeadSwitch (stripSwitches raw).2 = true :=
    stripAux_headClear raw.length raw le_rfl
  have h2 : noLeadSwitch (trim (stripSwitches raw).2) = true := by
    rw [trim_of_headClear _ h1]
    exact rtrim_headClear _ h1
  rw [stripSwitches_of_headClear _ h2]

/-- C7 counterexample: the base `Command.at_pre_cmd` body is `pass`, so the
hook returns the `None` sentinel, not a boolean value. -/
theorem at_pre_cmd_returns_none :
    Command.at_pre_cmd = none ∧ Command.at_pre_cmd ≠ some true
      ∧ Command.at_pre_cmd ≠ some false := by
  decide

/-- C7 amended: execution aborts after the pre-hook exactly when the value
`at_pre_cmd` returned is truthy (and runs all four hooks otherwise — the only
short-circuit); the base implementation returns `None`, which is falsy, so by
default no abort happens. -/
theorem lifecycle_aborts_iff_truthy (v : Option Bool) :
    (runLifecycle v = [HookStep.pre] ↔ truthy v = true)
    ∧ (runLifecycle v
        = [HookStep.pre, HookStep.parsing, HookStep.exec, HookStep.post]
        ↔ truthy v = false)
    ∧ runLifecycle Command.at_pre_cmd
        = [HookStep.pre, HookStep.parsing, HookStep.exec, HookStep.post] := by
  rcases v with _ | b
  · exact ⟨by decide, by decide, by decide⟩
  · cases b
    · exact ⟨by decide, by decide, by decide⟩
    · exact ⟨by decide, by decide, by decide⟩

/-- C8: `CmdWho.func` leaves the session registry and account count unchanged
and sends exactly one message, to the invoking caller. -/
theorem who_func_frame (st : WhoState) (callerId : Nat) (elevated : Bool)
    (switches : List (List Char)) (now : Int) :
    (CmdWho.func st callerId elevated switches now).1 = st
    ∧ (CmdWho.func st callerId elevated switches now).2
        = [(callerId, whoOutput st.sessions st.nplayers elevated switches now)]
    ∧ (CmdWho.func st callerId elevated switches now).2.length = 1 :=
  ⟨rfl, rfl, rfl⟩

theorem whoOutput_rows (sessions : List Session) (nplayers : Nat)
    (elevated : Bool) (switches : List (List Char)) (now : Int) :
    (whoOutput sessions nplayers elevated switches now).rows
      = (visibleSessions sessions).map (viewRow elevated switches now) := by
  cases elevated <;> by_cases hm : ['f'] ∈ switches <;>
    simp [whoOutput, viewRow, hm]

/-- C1: the table holds exactly one row per logged-in session — the skipped
sessions are exactly those not logged in — and the sessions the rows are
built from are in ascending order of the owning account's key. -/
theorem who_rows_one_per_logged_in (sessions : List Session) (nplayers : Nat)
    (elevated : Bool) (switches : List (List Char)) (now : Int) :
    (whoOutput sessions nplayers elevated switches now).rows
      = (visibleSessions sessions).map (viewRow elevated switches now)
    ∧ (whoOutput sessions nplayers elevated switches now).rows.length
      = sessions.countP (fun s => s.logged_in)
    ∧ (visibleSessions sessions).Perm
        (sessions.filter (fun s => s.logged_in))
    ∧ List.Pairwise sessLE (visibleSessions sessions) := by
  have hperm : (visibleSessions sessions).Perm
      (sessions.filter (fun s => s.logged_in)) :=
    List.Perm.filter _ (List.perm_insertionSort sessLE sessions)
  refine ⟨whoOutput_rows sessions nplayers elevated switches now, ?_, hperm, ?_⟩
  · rw [whoOutput_rows, List.length_map, hperm.length_eq,
      List.countP_eq_length_filter]
  · exact (List.sorted_insertionSort sessLE sessions).filter _

/-- C2: for an elevated caller with the `f` switch the table has exactly the
eight columns of the full view, and in every row the account-name and
location cells are crop results of at most 25 characters. -/
theorem who_full_view_eight_columns (sessions : List Session) (nplayers : Nat)
    (switches : List (List Char)) (now : Int) (hf : "f".toList ∈ switches) :
    (whoOutput sessions nplayers true switches now).header = fullHeader
    ∧ (whoOutput sessions nplayers true switches now).header.length = 8
    ∧ ∀ row ∈ (whoOutput sessions nplayers true switches now).rows,
        row.length = 8
        ∧ (∃ s : Session, row = mkRowFull now s
            ∧ row[0]? = some (Cell.str (crop s.player.key 25))
            ∧ row[4]? = some (Cell.str (crop (locationOf s) 25)))
        ∧ (∀ nm, row[0]? = some (Cell.str nm) → nm.length ≤ 25)
        ∧ (∀ loc, row[4]? = some (Cell.str loc) → loc.length ≤ 25) := by
  have hf' : ['f'] ∈ switches := hf
  have hhead : (whoOutput sessions nplayers true switches now).header
      = fullHeader := by
    simp [whoOutput, hf']
  refine ⟨hhead, by rw [hhead]; rfl, ?_⟩
  intro row hrow
  rw [whoOutput_rows] at hrow
  have hview : viewRow true switches now = mkRowFull now := by
    simp [viewRow, hf']
  rw [hview] at hrow
  rcases List.mem_map.mp hrow with ⟨s, _, rfl⟩
  refine ⟨rfl, ⟨s, rfl, rfl, rfl⟩, ?_, ?_⟩
  · intro nm hnm
    simp only [mkRowFull, List.getElem?_cons_zero, Option.some.injEq,
      Cell.str.injEq] at hnm
    rw [← hnm]
    exact crop_length_le _
  · intro loc hloc
    simp only [mkRowFull, List.getElem?_cons_succ, List.getElem?_cons_zero,
      Option.some.injEq, Cell.str.injEq] at hloc
    rw [← hloc]
    exact crop_length_le _

/-- Sample connected session used in concrete witnesses. -/
def sampleAmy : Session :=
  ⟨true, 10, 50, ⟨"Amy".toList⟩, some ⟨"Aria".toList, "Plaza".toList⟩, 4,
    "telnet".toList, Address.str "1.2.3.4".toList⟩

theorem who_full_view_eight_columns_witness :
    (whoOutput [sampleAmy] 1 true ["f".toList] 100).header = fullHeader
    ∧ (whoOutput [sampleAmy] 1 true ["f".toList] 100).header.length = 8 := by
  have h := who_full_view_eight_columns [sampleAmy] 1 ["f".toList] 100
    (by decide)
  exact ⟨h.1, h.2.1⟩

/-- C4: the appended summary line uses "One unique account logged in." when
the collaborator's count is exactly 1, and the plural
"N unique accounts logged in." for any other count, which at zero gives the
plural-safe "0 unique accounts logged in.". -/
theorem who_summary_counts :
    (∀ (sessions : List Session) (nplayers : Nat) (elevated : Bool)
        (switches : List (List Char)) (now : Int),
      (whoOutput sessions nplayers elevated switches now).summary
        = summaryPhrase nplayers)
    ∧ summaryPhrase 1 = "One unique account logged in.".toList
    ∧ (∀ n : Nat, n ≠ 1 →
        summaryPhrase n
          = (Nat.repr n).toList ++ " unique accounts logged in.".toList)
    ∧ summaryPhrase 0 = "0 unique accounts logged in.".toList := by
  refine ⟨?_, by decide, ?_, by decide⟩
  · intro sessions nplayers elevated switches now
    cases elevated <;> by_cases hm : ['f'] ∈ switches <;>
      simp [whoOutput, hm]
  · intro n hn
    simp only [summaryPhrase, if_neg hn]
    have h : (" unique account".toList
        ++ (['s'] ++ " logged in.".toList) : List Char)
        = " unique accounts logged in.".toList := by decide
    rw [List.append_assoc, List.append_assoc, h]

theorem who_summary_counts_witness :
    summaryPhrase 3 = (Nat.repr 3).toList ++ " unique accounts logged in.".toList :=
  who_summary_counts.2.2.1 3 (by decide)

/-- Two sessions equal except possibly in the owning account's identity
(name/key), the protocol identifier and the network address — the fields C3
claims the non-elevated output cannot depend on. -/
def agreeExceptIdentity (s t : Session) : Prop :=
  s.logged_in = t.logged_in ∧ s.conn_time = t.conn_time
    ∧ s.cmd_last_visible = t.cmd_last_visible ∧ s.puppet = t.puppet
    ∧ s.cmd_total = t.cmd_total

instance (s t : Session) : Decidable (agreeExceptIdentity s t) := by
  unfold agreeExceptIdentity
  infer_instance

/-- Two sessions equal except possibly in the protocol identifier and the
network address. -/
def agreeExceptProtoAddr (s t : Session) : Prop :=
  s.logged_in = t.logged_in ∧ s.conn_time = t.conn_time
    ∧ s.cmd_last_visible = t.cmd_last_visible ∧ s.player = t.player
    ∧ s.puppet = t.puppet ∧ s.cmd_total = t.cmd_total

instance (s t : Session) : Decidable (agreeExceptProtoAddr s t) := by
  unfold agreeExceptProtoAddr
  infer_instance

/-- Logged-in session owned by account "Amy". -/
def leakA1 : Session :=
  ⟨true, 10, 50, ⟨"Amy".toList⟩, some ⟨"Aria".toList, "Plaza".toList⟩, 4,
    "telnet".toList, Address.str "1.2.3.4".toList⟩

/-- The session `leakA1` with only the owning account's name changed. -/
def leakA2 : Session :=
  ⟨true, 10, 50, ⟨"Zoe".toList⟩, some ⟨"Aria".toList, "Plaza".toList⟩, 4,
    "telnet".toList, Address.str "1.2.3.4".toList⟩

/-- A second logged-in session whose account key sorts between "Amy" and
"Zoe". -/
def leakB : Session :=
  ⟨true, 20, 60, ⟨"Bob".toList⟩, some ⟨"Brick".toList, "Dock".toList⟩, 7,
    "websocket".toList, Address.str "5.6.7.8".toList⟩

/-- C3 counterexample: two session lists that differ only in one account's
name produce different non-elevated `who/f` outputs, because the account key
determines the row order. -/
theorem who_nonelev_order_leaks_account_key :
    agreeExceptIdentity leakA1 leakA2 ∧ agreeExceptIdentity leakB leakB
    ∧ whoOutput [leakA1, leakB] 2 false ["f".toList] 100
      ≠ whoOutput [leakA2, leakB] 2 false ["f".toList] 100 := by
  decide

/-- Erase the fields the non-elevated views never read. -/
def scrubProtoAddr (s : Session) : Session :=
  ⟨s.logged_in, s.conn_time, s.cmd_last_visible, s.player, s.puppet,
    s.cmd_total, [], Address.str []⟩

theorem orderedInsert_scrub (a : Session) (l : List Session) :
    List.orderedInsert sessLE (scrubProtoAddr a) (l.map scrubProtoAddr)
      = (List.orderedInsert sessLE a l).map scrubProtoAddr := by
  induction l with
  | nil => rfl
  | cons b l ih =>
    have hc : sessLE (scrubProtoAddr a) (scrubProtoAddr b) = sessLE a b := rfl
    by_cases h : sessLE a b
    · simp [List.orderedInsert, hc, h]
    · simp [List.orderedInsert, hc, h, ih]

theorem insertionSort_scrub (l : List Session) :
    List.insertionSort sessLE (l.map scrubProtoAddr)
      = (List.insertionSort sessLE l).map scrubProtoAddr := by
  induction l with
  | nil => rfl
  | cons a l ih => simp [List.insertionSort, ih, orderedInsert_scrub]

theorem visibleSessions_scrub (l : List Session) :
    visibleSessions (l.map scrubProtoAddr)
      = (visibleSessions l).map scrubProtoAddr := by
  unfold visibleSessions
  rw [insertionSort_scrub, List.filter_map]
  rfl

theorem mkRowMod_scrub (now : Int) (s : Session) :
    mkRowMod now (scrubProtoAddr s) = mkRowMod now s := rfl

theorem mkRowMin_scrub (now : Int) (s : Session) :
    mkRowMin now (scrubProtoAddr s) = mkRowMin now s := rfl

theorem whoOutput_nonelev_scrub (l : List Session) (nplayers : Nat)
    (switches : List (List Char)) (now : Int) :
    whoOutput (l.map scrubProtoAddr) nplayers false switches now
      = whoOutput l nplayers false switches now := by
  by_cases hm : ['f'] ∈ switches <;>
    simp [whoOutput, hm, visibleSessions_scrub, List.map_map, Function.comp,
      mkRowMod_scrub, mkRowMin_scrub]

theorem scrub_eq_of_agree (s t : Session) (h : agreeExceptProtoAddr s t) :
    scrubProtoAddr s = scrubProtoAddr t := by
  obtain ⟨h1, h2, h3, h4, h5, h6⟩ := h
  unfold scrubProtoAddr
  rw [h1, h2, h3, h4, h5, h6]

theorem map_scrub_eq_of_agree (l1 l2 : List Session)
    (h : List.Forall₂ agreeExceptProtoAddr l1 l2) :
    l1.map scrubProtoAddr = l2.map scrubProtoAddr := by
  induction h with
  | nil => rfl
  | cons ha _ ih => simp [List.map, scrub_eq_of_agree _ _ ha, ih]

/-- C3 amended: with a non-elevated caller, the output of `who` (with or
without the `f` switch) is identical across any two session lists that differ
only in protocol identifiers and network addresses; the owning account's
name, however, can still influence the output through the row order. -/
theorem who_nonelev_no_proto_addr (l1 l2 : List Session) (nplayers : Nat)
    (switches : List (List Char)) (now : Int)
    (h : List.Forall₂ agreeExceptProtoAddr l1 l2) :
    whoOutput l1 nplayers false switches now
      = whoOutput l2 nplayers false switches now := by
  rw [← whoOutput_nonelev_scrub l1, ← whoOutput_nonelev_scrub l2,
    map_scrub_eq_of_agree l1 l2 h]

/-- The session `leakA1` with only protocol and address changed. -/
def protoB : Session :=
  ⟨true, 10, 50, ⟨"Amy".toList⟩, some ⟨"Aria".toList, "Plaza".toList⟩, 4,
    "ssh".toList, Address.tup "9.9.9.9".toList []⟩

theorem who_nonelev_no_proto_addr_witness :
    whoOutput [leakA1] 1 false ["f".toList] 100
      = whoOutput [protoB] 1 false ["f".toList] 100 :=
  who_nonelev_no_proto_addr [leakA1] [protoB] 1 ["f".toList] 100
    (List.Forall₂.cons (by decide) List.Forall₂.nil)

/-- C9: a session without a puppet shows "None" in the character column of
the elevated full view, "- Unknown -" in the character column of the other
two views, and "None" wherever a location column exists. -/
theorem who_missing_puppet_placeholders (now : Int) (s : Session)
    (h : s.puppet = none) :
    (mkRowFull now s)[3]? = some (Cell.str "None".toList)
    ∧ (mkRowFull now s)[4]? = some (Cell.str "None".toList)
    ∧ (mkRowMod now s)[0]? = some (Cell.str "- Unknown -".toList)
    ∧ (mkRowMod now s)[3]? = some (Cell.str "None".toList)
    ∧ (mkRowMin now s)[0]? = some (Cell.str "- Unknown -".toList) := by
  refine ⟨?_, ?_, ?_, ?_, ?_⟩ <;>
    simp [mkRowFull, mkRowMod, mkRowMin, charDisplay, locationOf, h] <;>
    decide

/-- Logged-in session with no puppet, used as a concrete witness. -/
def ghost : Session :=
  ⟨true, 10, 50, ⟨"Eve".toList⟩, none, 0, "telnet".toList,
    Address.str "1.2.3.4".toList⟩

theorem who_missing_puppet_placeholders_witness :
    (mkRowMod 100 ghost)[0]? = some (Cell.str "- Unknown -".toList) :=
  (who_missing_puppet_placeholders 100 ghost rfl).2.2.1

/-- C10: the character cell is a 25-character crop in the minimal view, and
the non-elevated `who/f` view crops both the character and the location
cells; all stay within 25 characters. -/
theorem who_truncation_every_view (now : Int) (s : Session) :
    (mkRowMin now s)[0]?
      = some (Cell.str (crop (charDisplay "- Unknown -".toList s) 25))
    ∧ (mkRowMod now s)[0]?
      = some (Cell.str (crop (charDisplay "- Unknown -".toList s) 25))
    ∧ (mkRowMod now s)[3]? = some (Cell.str (crop (locationOf s) 25))
    ∧ (crop (charDisplay "- Unknown -".toList s) 25).length ≤ 25
    ∧ (crop (locationOf s) 25).length ≤ 25 :=
  ⟨rfl, rfl, rfl, crop_length_le _, crop_length_le _⟩
